import Mathlib

/-!
Verification development for the lowTEMP4districtheat district-heating
simulation kernel.

The definitions below are shallow embeddings of the Python source:

- `make_matrix_coupl`, the node/pipe coupling (incidence) matrix builder
  (simulation/Auxiliary_functions.py),
- the flow-direction correction loop of `solve_network_hydr` and the
  continuity/pressure residual assembly of `equ_network_forerun` and
  `equ_network_return` (simulation/hydraulic_equ_system.py),
- the node and pipe updates and the topological propagation loop of
  `solve_network_therm` (simulation/thermal_equ_system.py),
- the reference-pressure-node validation of `main_program` and
  `read_grid_setup` (simulation/main_program.py, simulation/fcns_read.py).

Mass flows, temperatures and pressures are embedded as rationals (Python
floats are dyadic rationals); matrix entries as integers; failing code paths
as `Option`/`Except` values. The file lists all definitions first and all
theorems afterwards.
-/

set_option autoImplicit false

namespace LowTemp

variable {nN nL : ℕ}

/-! # Definitions -/

/-! ## Coupling matrix (Auxiliary_functions.make_matrix_coupl) -/

/-- Embedding of `make_matrix_coupl` (Auxiliary_functions.py, lines 164-174).
The source zero-initialises the matrix, then for every pipe sets the entry at
its start node to 1 and the entry at its end node to -1; when a pipe starts
and ends at the same node the later end-assignment wins, which the nested
`if` reproduces. -/
def make_matrix_coupl (node_start node_end : Fin nL → Fin nN) :
    Fin nN → Fin nL → ℤ :=
  fun x l => if x = node_end l then -1 else if x = node_start l then 1 else 0

/-- One entry of the direction-correction flip in `solve_network_hydr`
(hydraulic_equ_system.py, lines 102-106 and 132-136): 1 becomes -1,
-1 becomes 1, anything else is left alone. -/
def flip_entry (e : ℤ) : ℤ :=
  if e = 1 then -1 else if e = -1 then 1 else e

/-- Flipping the column of one pipe, as the inner `for x_node` loop of the
direction correction does. -/
def flip_column (M : Fin nN → Fin nL → ℤ) (l0 : Fin nL) :
    Fin nN → Fin nL → ℤ :=
  fun x l => if l = l0 then flip_entry (M x l) else M x l

/-- Initial return coupling matrix: `matrix_coupl_forerun * (-1)`
(hydraulic_equ_system.py, line 116). -/
def matrix_coupl_return_init (M : Fin nN → Fin nL → ℤ) :
    Fin nN → Fin nL → ℤ :=
  fun x l => -(M x l)

/-- The per-column shape invariant of a coupling matrix: every pipe column
has exactly one +1 entry (its start node), exactly one -1 entry (its end
node), and all entries among +1, -1 and 0. -/
def coupl_col_invariant (M : Fin nN → Fin nL → ℤ) : Prop :=
  ∀ l : Fin nL, (∃! x, M x l = 1) ∧ (∃! x, M x l = -1) ∧
    (∀ x, M x l = 1 ∨ M x l = -1 ∨ M x l = 0)

/-! ## Direction-correction loop of solve_network_hydr
(hydraulic_equ_system.py, lines 89-109 for the forerun, 119-139 for the
return; both loops have the identical shape embedded here).

The call to `scipy.optimize.fsolve` is embedded as an oracle
`solver : matrix -> flows`: the solved pipe mass flows depend on the current
coupling matrix (through `equ_network_forerun`) and on the start-value vector,
which the source never changes between iterations. -/

/-- The check threshold: the source corrects a pipe when its solved mass flow
is below -1e-10 (written with `mkRat` so that concrete comparisons reduce;
`tol_neg_eq` records that this is exactly -1/10^10). -/
def tol_neg : ℚ := -(mkRat 1 10000000000)

/-- Value of `cntr_wrong_direction` after one check pass: the number of pipes
whose solved mass flow is below the tolerance. -/
def wrong_direction_count (m : Fin nL → ℚ) : ℕ :=
  (Finset.univ.filter (fun l => m l < tol_neg)).card

/-- One correction pass: every pipe with negative solved mass flow gets its
coupling-matrix column flipped (the `for x_line ... for x_node` nest). -/
def flip_negative_columns (M : Fin nN → Fin nL → ℤ) (m : Fin nL → ℚ) :
    Fin nN → Fin nL → ℤ :=
  fun x l => if m l < tol_neg then flip_entry (M x l) else M x l

/-- The `while cntr_wrong_direction > 0` loop of `solve_network_hydr`,
embedded with explicit fuel because the source has no iteration bound:
solve, count the wrong directions, return the matrix and flows if none,
otherwise flip the offending columns and re-solve. `none` means the loop
has not finished within `fuel` iterations. -/
def solve_hydr_dir_loop (solver : (Fin nN → Fin nL → ℤ) → (Fin nL → ℚ)) :
    (Fin nN → Fin nL → ℤ) → ℕ → Option ((Fin nN → Fin nL → ℤ) × (Fin nL → ℚ))
  | _, 0 => none
  | M, fuel + 1 =>
    if wrong_direction_count (solver M) = 0 then some (M, solver M)
    else solve_hydr_dir_loop solver (flip_negative_columns M (solver M)) fuel

/-- The coupling matrix as it stands before the solve of iteration `k`. -/
def hydr_mat_iter (solver : (Fin nN → Fin nL → ℤ) → (Fin nL → ℚ))
    (M0 : Fin nN → Fin nL → ℤ) : ℕ → (Fin nN → Fin nL → ℤ)
  | 0 => M0
  | k + 1 =>
    flip_negative_columns (hydr_mat_iter solver M0 k)
      (solver (hydr_mat_iter solver M0 k))

/-- The mass flows produced by the solve of iteration `k`. -/
def hydr_solve_at (solver : (Fin nN → Fin nL → ℤ) → (Fin nL → ℚ))
    (M0 : Fin nN → Fin nL → ℤ) (k : ℕ) : Fin nL → ℚ :=
  solver (hydr_mat_iter solver M0 k)

/-- Number of executed pre-correction solves (iterations the loop actually
reached, i.e. where the loop was still unfinished) that reported a negative
mass flow for pipe `l`. -/
def neg_solve_count (solver : (Fin nN → Fin nL → ℤ) → (Fin nL → ℚ))
    (M0 : Fin nN → Fin nL → ℤ) (fuel : ℕ) (l : Fin nL) : ℕ :=
  ((Finset.range fuel).filter (fun k =>
    (solve_hydr_dir_loop solver M0 k).isNone = true ∧
      hydr_solve_at solver M0 k l < tol_neg)).card

/-- Claim C1 as stated by the spec: after the loop returns, a pipe column of
the final coupling matrix differs from the initially assumed one exactly when
some executed pre-correction solve yielded a negative mass flow for that
pipe. -/
def final_flip_iff_negative (solver : (Fin nN → Fin nL → ℤ) → (Fin nL → ℚ))
    (M0 : Fin nN → Fin nL → ℤ) (fuel : ℕ) : Prop :=
  ∀ p, solve_hydr_dir_loop solver M0 fuel = some p →
    ∀ l, (∃ x, p.1 x l ≠ M0 x l) ↔
      ∃ k, (solve_hydr_dir_loop solver M0 k).isNone = true ∧
        hydr_solve_at solver M0 k l < tol_neg

/-- Trivial one-pipe instance used as witness data: the solver reports a
positive flow at once, so the loop stops in the first iteration. -/
def trivSolver : (Fin 1 → Fin 1 → ℤ) → (Fin 1 → ℚ) := fun _ _ => 1

def trivM0 : Fin 1 → Fin 1 → ℤ := fun _ _ => 1

def trivFlow : Fin 1 → ℚ := fun _ => 1

/-- Two pipes, both initially oriented from node 0 to node 1. -/
def exM0 : Fin 2 → Fin 2 → ℤ := fun x _ => if x = 0 then 1 else -1

/-- Solver oracle driving the loop through two correction passes: the first
solve reports pipe 0 negative (pipe 0 gets flipped), the second reports both
pipes negative (both get flipped, restoring pipe 0), the third reports all
flows positive. -/
def exSolver : (Fin 2 → Fin 2 → ℤ) → (Fin 2 → ℚ) := fun M =>
  if M 0 0 = 1 ∧ M 0 1 = 1 then (fun l => if l = 0 then -1 else 1)
  else if M 0 0 = -1 then (fun _ => -1)
  else (fun _ => 1)

/-- One pipe from node 0 to node 1. -/
def stuckM0 : Fin 2 → Fin 1 → ℤ := fun x _ => if x = 0 then 1 else -1

/-- Solver oracle that keeps reporting a negative mass flow whatever the
coupling matrix looks like (e.g. a pathological topology on which fsolve
keeps returning its best negative estimate). -/
def stuckSolver : (Fin 2 → Fin 1 → ℤ) → (Fin 1 → ℚ) := fun _ _ => -1

/-! ## Residual assembly of equ_network_forerun and equ_network_return
(hydraulic_equ_system.py, lines 216-306 and 313-405). -/

/-- Exact rational value of the Python float `math.pi`
(doubles are dyadic rationals). -/
def math_pi : ℚ := mkRat 884279719003555 281474976710656

/-- Continuity residual of one node, as assembled by `equ_network_forerun`
(lines 359-382): starting from zero, for every pipe with a nonzero coupling
entry the signed mass flow is added; the external mass flow is subtracted
only when it is nonzero. -/
def continuity_equ_forerun (M : Fin nN → Fin nL → ℤ) (m_int : Fin nL → ℚ)
    (m_ext : Fin nN → ℚ) (x : Fin nN) : ℚ :=
  (∑ l in Finset.univ.filter (fun l => M x l ≠ 0), (M x l : ℚ) * m_int l) -
    (if m_ext x ≠ 0 then m_ext x else 0)

/-- Continuity residual of one node, as assembled by `equ_network_return`
(lines 258-282); identical in shape to the forerun assembly. -/
def continuity_equ_return (M : Fin nN → Fin nL → ℤ) (m_int : Fin nL → ℚ)
    (m_ext : Fin nN → ℚ) (x : Fin nN) : ℚ :=
  (∑ l in Finset.univ.filter (fun l => M x l ≠ 0), (M x l : ℚ) * m_int l) -
    (if m_ext x ≠ 0 then m_ext x else 0)

/-- Pressure residual of one pipe, as assembled by `equ_network_forerun`
(lines 385-403): signed node pressures with the hydrostatic term, minus the
quadratic friction loss. The transposed coupling matrix entry
`matrix_coupl_forerun_trans[x_line, x_node]` is `M x l`. -/
def pressure_equ_forerun (M : Fin nN → Fin nL → ℤ) (p h_coord : Fin nN → ℚ)
    (rho g : ℚ) (m_int dia lambd len zeta : Fin nL → ℚ) (l : Fin nL) : ℚ :=
  (∑ x in Finset.univ.filter (fun x => M x l ≠ 0),
    (M x l : ℚ) * (p x + rho * g * h_coord x)) -
  ((8 * m_int l ^ 2) / (dia l ^ 4 * math_pi ^ 2 * rho)) *
    (lambd l * (len l / dia l) + zeta l)

/-- Pressure residual of one pipe, as assembled by `equ_network_return`
(lines 285-304). -/
def pressure_equ_return (M : Fin nN → Fin nL → ℤ) (p h_coord : Fin nN → ℚ)
    (rho g : ℚ) (m_int dia lambd len zeta : Fin nL → ℚ) (l : Fin nL) : ℚ :=
  (∑ x in Finset.univ.filter (fun x => M x l ≠ 0),
    (M x l : ℚ) * (p x + rho * g * h_coord x)) -
  ((8 * m_int l ^ 2) / (dia l ^ 4 * math_pi ^ 2 * rho)) *
    (lambd l * (len l / dia l) + zeta l)

/-- The full residual list returned by `equ_network_forerun`: one continuity
equation per node followed by one pressure equation per pipe. -/
def equ_network_forerun (M : Fin nN → Fin nL → ℤ) (m_int : Fin nL → ℚ)
    (m_ext : Fin nN → ℚ) (p h_coord : Fin nN → ℚ) (rho g : ℚ)
    (dia lambd len zeta : Fin nL → ℚ) : List ℚ :=
  ((List.finRange nN).map (fun x => continuity_equ_forerun M m_int m_ext x)) ++
  ((List.finRange nL).map (fun l =>
    pressure_equ_forerun M p h_coord rho g m_int dia lambd len zeta l))

/-- The full residual list returned by `equ_network_return`. -/
def equ_network_return (M : Fin nN → Fin nL → ℤ) (m_int : Fin nL → ℚ)
    (m_ext : Fin nN → ℚ) (p h_coord : Fin nN → ℚ) (rho g : ℚ)
    (dia lambd len zeta : Fin nL → ℚ) : List ℚ :=
  ((List.finRange nN).map (fun x => continuity_equ_return M m_int m_ext x)) ++
  ((List.finRange nL).map (fun l =>
    pressure_equ_return M p h_coord rho g m_int dia lambd len zeta l))

/-- A one-node, zero-pipe network with zero external flow: the assembled
system is the single residual 0, a root. -/
def c2M : Fin 1 → Fin 0 → ℤ := fun _ => Fin.elim0

def c2pipe : Fin 0 → ℚ := Fin.elim0

def c2node : Fin 1 → ℚ := fun _ => 0

/-! ## Reference-pressure-node validation (fcns_read.read_grid_setup and
main_program, before the simulation loop). -/

/-- One node row of the grid-setup sheet, restricted to the two cells the
validation reads: column 7 (`ref_flag`: the cell holds the mark "x") and
column 8 (`feeder_id`: the feeder id, `None` when the node is no feeder). -/
structure NodeRow where
  ref_flag : Bool
  feeder_id : Option String

/-- Embedding of the reference-node handling of `read_grid_setup`
(fcns_read.py, lines 312-317), iterated over the node rows: a row flagged as
pressure reference whose feeder cell is `None` raises an exception;
otherwise the flagged node index is appended to `node.p_ref`. -/
def read_p_ref_aux : ℕ → List NodeRow → Except Unit (List ℕ)
  | _, [] => Except.ok []
  | i, r :: rs =>
    if r.ref_flag then
      if r.feeder_id = none then Except.error ()
      else (read_p_ref_aux (i + 1) rs).map (fun t => i :: t)
    else read_p_ref_aux (i + 1) rs

/-- Where a run of `main_program` gets to before the first hydraulic solve. -/
inductive MainOutcome where
  | readError : MainOutcome
  | configAbort : MainOutcome
  | solveStarted : List ℕ → MainOutcome

/-- Control flow of `main_program` up to the first call of
`solve_network_hydr`: reading the topology may raise; then the sanity check
of main_program.py lines 161-167 calls `exit()` when `len(node.p_ref)` is 0
or greater than 1; only then the simulation loop with the hydraulic solves
is entered. -/
def main_program_until_first_solve (rows : List NodeRow) : MainOutcome :=
  match read_p_ref_aux 0 rows with
  | Except.error _ => MainOutcome.readError
  | Except.ok p_ref =>
    if p_ref.length = 0 then MainOutcome.configAbort
    else if 1 < p_ref.length then MainOutcome.configAbort
    else MainOutcome.solveStarted p_ref

/-- A reference-flagged feeder row. -/
def c9row_ok : NodeRow := ⟨true, some (default : String)⟩

/-- A reference-flagged row that is not a feeder. -/
def c9row_bad : NodeRow := ⟨true, none⟩

/-! ## Node updates of solve_network_therm (thermal_equ_system.py) -/

/-- The count `collections.Counter(matrix row)[-1]` used as `sum_line_in`:
number of pipes coming into node `x` under the current coupling matrix. -/
def in_degree (M : Fin nN → Fin nL → ℤ) (x : Fin nN) : ℕ :=
  (Finset.univ.filter (fun l => M x l = -1)).card

/-- The incoming pipe found by the `for x_line ...: if coupl == -1: break`
search (used in the single-incoming-pipe branches). -/
def first_incoming (M : Fin nN → Fin nL → ℤ) (x : Fin nN) : Option (Fin nL) :=
  (List.finRange nL).find? (fun l => decide (M x l = -1))

/-- `sum_1`, the weighted outlet-temperature sum accumulated over the
incoming pipes: for every pipe with coupling entry -1 at the node the term
`line.t[-1] * line.m_int_trans[cntr_time_hyd]` is added. -/
def mix_sum_t (M : Fin nN → Fin nL → ℤ) (t_last m_trans : Fin nL → ℚ)
    (x : Fin nN) : ℚ :=
  ∑ l in Finset.univ.filter (fun l => M x l = -1), t_last l * m_trans l

/-- `sum_2`, the mass-flow sum accumulated over the incoming pipes. -/
def mix_sum_m (M : Fin nN → Fin nL → ℤ) (m_trans : Fin nL → ℚ)
    (x : Fin nN) : ℚ :=
  ∑ l in Finset.univ.filter (fun l => M x l = -1), m_trans l

/-- Models the Python expression
`node.m_ext_forerun[x_node][var_sim.cntr_time_hyd]`
(thermal_equ_system.py, line 260): `node.m_ext_forerun` is rebuilt every
hydraulic step as one scalar per node (main_program.py, lines 208-236), so
the second subscript is applied to a scalar and raises `TypeError`; embedded
as `none` whatever the stored scalar and the time index are. -/
def m_ext_forerun_subscript (m_ext_forerun : Fin nN → ℚ) (t_hyd : ℕ)
    (x : Fin nN) : Option ℚ :=
  none

/-- One node update of the forerun propagation in `solve_network_therm`
(lines 166-273), for a node that passed the readiness scan. Arguments mirror
the arrays read there: `m_ext_trans x` is
`node.m_ext_forerun_trans[x][cntr_time_hyd]`, `t_last l` is
`line.t_forerun[l][-1]`, `m_trans l` is
`line.m_int_forerun_trans[l][cntr_time_hyd]`, `temp_flow_feed x` is
`node.temp_flow_feed[x][cntr_time_hyd]`, `feed_in`/`p_ref` are the feeder
flag and reference-node membership tested in line 257, `V_dot_feed x` is
`node.V_dot_feed[x][cntr_time_hyd]`, and `m_ext_scalar` is the per-step
scalar array `node.m_ext_forerun`. `none` means no temperature is stored:
either the feeder branch has no incoming pipe (no assignment), or the
non-reference feeder path crashes on the scalar subscript of line 260. -/
def forerun_node_update (M : Fin nN → Fin nL → ℤ) (m_ext_trans : Fin nN → ℚ)
    (t_last m_trans : Fin nL → ℚ) (temp_flow_feed : Fin nN → ℚ)
    (feed_in p_ref : Fin nN → Bool) (V_dot_feed m_ext_scalar : Fin nN → ℚ)
    (rho : ℚ) (t_hyd : ℕ) (x : Fin nN) : Option ℚ :=
  if m_ext_trans x = 0 then
    if in_degree M x = 1 then (first_incoming M x).map t_last
    else some (mix_sum_t M t_last m_trans x / mix_sum_m M m_trans x)
  else if m_ext_trans x < 0 then
    if in_degree M x = 1 then (first_incoming M x).map t_last
    else some (mix_sum_t M t_last m_trans x / mix_sum_m M m_trans x)
  else
    if 0 < in_degree M x then
      (if feed_in x ∧ p_ref x then some (V_dot_feed x * rho / 1000)
       else m_ext_forerun_subscript m_ext_scalar t_hyd x).map
        (fun m_ext_current =>
          (temp_flow_feed x * m_ext_current + mix_sum_t M t_last m_trans x) /
          (m_ext_current + mix_sum_m M m_trans x))
    else none

/-- One node update of the return propagation in `solve_network_therm`
(lines 373-474), for a node that passed the readiness scan. In the consumer
branch the source computes the external return temperature, stores its
soil-clipped value (lines 424-429), then unconditionally overwrites that
with the mixing value of lines 437-448 (the quotient with the unclipped
value when the summed flow is nonzero, the previous return temperature
otherwise); the embedding returns the finally stored value. The feeder
branch (lines 457-474) assigns the plain mixing quotient. -/
def return_prop_node_update (M : Fin nN → Fin nL → ℤ)
    (m_ext_trans : Fin nN → ℚ) (t_last m_trans : Fin nL → ℚ)
    (t_forerun_now t_return_prev : Fin nN → ℚ)
    (Q_dot_sim V_dot_sim : Fin nN → ℚ) (feed_in : Fin nN → Bool)
    (rho c_p : ℚ) (x : Fin nN) : Option ℚ :=
  if m_ext_trans x = 0 then
    if in_degree M x = 1 then (first_incoming M x).map t_last
    else some (if mix_sum_m M m_trans x ≠ 0 then
        mix_sum_t M t_last m_trans x / mix_sum_m M m_trans x
      else t_return_prev x)
  else if 0 < m_ext_trans x ∧ feed_in x = false then
    some (if m_ext_trans x + mix_sum_m M m_trans x ≠ 0 then
        ((t_forerun_now x - Q_dot_sim x * 1000 /
            (V_dot_sim x / 1000 * rho * c_p)) * m_ext_trans x +
          mix_sum_t M t_last m_trans x) /
        (m_ext_trans x + mix_sum_m M m_trans x)
      else t_return_prev x)
  else
    if 0 < in_degree M x then
      some (mix_sum_t M t_last m_trans x / mix_sum_m M m_trans x)
    else none

/-- The seeding pass of the return propagation (lines 315-341), for one
node: it applies to nodes with nonnegative external return mass flow and no
incoming return pipe (`none` otherwise). Zero flow carries the last
forerun/return temperature difference forward (or copies the forerun
temperature in the very first hydraulic step); positive flow at a consumer
stores the soil-clipped energy balance with
`V_current = m_ext_return / rho * 1000`; positive flow at a feeder raises
`ValueError` (reversed flow into a feeder), embedded as `Except.error`. -/
def return_seed_node_update (M : Fin nN → Fin nL → ℤ)
    (m_ext_return : Fin nN → ℚ) (feed_in : Fin nN → Bool) (t_hyd : ℕ)
    (t_forerun_now t_forerun_prev t_return_prev : Fin nN → ℚ)
    (Q_dot_sim : Fin nN → ℚ) (temp_soil rho c_p : ℚ) (x : Fin nN) :
    Option (Except Unit ℚ) :=
  if 0 ≤ m_ext_return x ∧ in_degree M x = 0 then
    some (
      if m_ext_return x = 0 then
        Except.ok (if t_hyd = 0 then t_forerun_now x
          else t_forerun_now x - (t_forerun_prev x - t_return_prev x))
      else if feed_in x = false then
        Except.ok (if t_forerun_now x - Q_dot_sim x * 1000 /
              ((m_ext_return x / rho * 1000) / 1000 * rho * c_p) < temp_soil
          then temp_soil
          else t_forerun_now x - Q_dot_sim x * 1000 /
              ((m_ext_return x / rho * 1000) / 1000 * rho * c_p))
      else Except.error ())
  else none

/-- One pipe from node 0 to node 1 (the orientation of the current coupling
matrix, forerun or return). -/
def chainM : Fin 2 → Fin 1 → ℤ := fun x _ => if x = 0 then 1 else -1

/-- Two pipes merging into node 2 (pipe `l` runs from node `l` to node 2). -/
def mergeM : Fin 3 → Fin 2 → ℤ :=
  fun x l => if x = 2 then -1 else if x.val = l.val then 1 else 0

/-- A node with no pipes at all (seed-branch witness data). -/
def soloM : Fin 1 → Fin 0 → ℤ := fun _ => Fin.elim0

instance {α : Type} [Fintype α] [DecidableEq α] (p : α → Prop)
    [DecidablePred p] : Decidable (∃! x, p x) :=
  decidable_of_iff (∃ x, p x ∧ ∀ y, p y → y = x) Iff.rfl

/-! ## Topological propagation loop of solve_network_therm, forerun side
(thermal_equ_system.py, lines 88-308). -/

/-- The bookkeeping of one thermal substep (lines 90-106): which nodes and
pipes have been advanced this substep (`node_calc_forerun`,
`line_calc_forerun`), plus counters of how often each node temperature was
computed and each pipe segment array advanced (the source performs the
temperature assignment exactly where it sets the corresponding flag). -/
structure PropState (nN nL : ℕ) where
  nodeCalc : Fin nN → Bool
  lineCalc : Fin nL → Bool
  nodeCount : Fin nN → ℕ
  lineCount : Fin nL → ℕ

/-- The readiness scan for nodes (lines 149-163): a node not yet advanced is
ready when it has no unadvanced incoming pipe (`sum_t_int_out_unkn == 0`)
and at least one advanced incoming pipe (`sum_t_int_out_known > 0`). -/
def node_ready (M : Fin nN → Fin nL → ℤ) (s : PropState nN nL)
    (x : Fin nN) : Prop :=
  s.nodeCalc x = false ∧ (∀ l, M x l = -1 → s.lineCalc l = true) ∧
    (∃ l, M x l = -1 ∧ s.lineCalc l = true)

instance (M : Fin nN → Fin nL → ℤ) (s : PropState nN nL) (x : Fin nN) :
    Decidable (node_ready M s x) := by
  unfold node_ready
  infer_instance

/-- The pipe scan (lines 279-284): a pipe not yet advanced becomes
computable when its start node has been advanced. -/
def line_ready (M : Fin nN → Fin nL → ℤ) (s : PropState nN nL)
    (l : Fin nL) : Prop :=
  s.lineCalc l = false ∧ ∃ x, M x l = 1 ∧ s.nodeCalc x = true

instance (M : Fin nN → Fin nL → ℤ) (s : PropState nN nL) (l : Fin nL) :
    Decidable (line_ready M s l) := by
  unfold line_ready
  infer_instance

/-- The node phase of one `while calc_therm == 1` iteration (lines 149-276):
every ready node gets its temperature computed and is marked advanced. -/
def step_nodes (M : Fin nN → Fin nL → ℤ) (s : PropState nN nL) :
    PropState nN nL :=
  { s with
    nodeCalc := fun x => s.nodeCalc x || decide (node_ready M s x),
    nodeCount := fun x => s.nodeCount x + (if node_ready M s x then 1 else 0) }

/-- The pipe phase of the same iteration (lines 279-304): every computable
pipe gets its segment temperature array advanced and is marked advanced. -/
def step_lines (M : Fin nN → Fin nL → ℤ) (s : PropState nN nL) :
    PropState nN nL :=
  { s with
    lineCalc := fun l => s.lineCalc l || decide (line_ready M s l),
    lineCount := fun l => s.lineCount l + (if line_ready M s l then 1 else 0) }

/-- One full iteration of the propagation loop: node phase, then pipe
phase. -/
def therm_body (M : Fin nN → Fin nL → ℤ) (s : PropState nN nL) :
    PropState nN nL :=
  step_lines M (step_nodes M s)

/-- The termination check of lines 306-308: every pipe and every node has
been advanced. -/
def prop_complete (s : PropState nN nL) : Prop :=
  (∀ x, s.nodeCalc x = true) ∧ (∀ l, s.lineCalc l = true)

instance (s : PropState nN nL) : Decidable (prop_complete s) := by
  unfold prop_complete
  infer_instance

/-- The `while calc_therm == 1` loop with explicit fuel (the source loop is
unbounded): run one iteration, stop when everything is advanced, `none` when
the fuel runs out first. -/
def therm_forerun_loop (M : Fin nN → Fin nL → ℤ) :
    PropState nN nL → ℕ → Option (PropState nN nL)
  | _, 0 => none
  | s, fuel + 1 =>
    if prop_complete (therm_body M s) then some (therm_body M s)
    else therm_forerun_loop M (therm_body M s) fuel

/-- The seed test of line 125: nonnegative external forerun mass flow and no
incoming pipe under the corrected coupling matrix. -/
def is_seed (M : Fin nN → Fin nL → ℤ) (m_ext : Fin nN → ℚ)
    (x : Fin nN) : Prop :=
  0 ≤ m_ext x ∧ in_degree M x = 0

instance (M : Fin nN → Fin nL → ℤ) (m_ext : Fin nN → ℚ) (x : Fin nN) :
    Decidable (is_seed M m_ext x) := by
  unfold is_seed
  infer_instance

/-- The state after the seeding pass (lines 122-141): every seed node gets
its temperature assigned (line 128); each of its outgoing pipes is advanced,
and only inside that pipe loop is the seed node itself marked advanced - a
seed without outgoing pipes is therefore never marked. The pipe counter
counts one advancement per seed node that starts the pipe, mirroring the
nested loops. -/
def seed_state (M : Fin nN → Fin nL → ℤ) (m_ext : Fin nN → ℚ) :
    PropState nN nL :=
  { nodeCalc := fun x => decide (is_seed M m_ext x ∧ ∃ l, M x l = 1),
    lineCalc := fun l => decide (∃ x, is_seed M m_ext x ∧ M x l = 1),
    nodeCount := fun x => if is_seed M m_ext x then 1 else 0,
    lineCount := fun l =>
      (Finset.univ.filter (fun x => is_seed M m_ext x ∧ M x l = 1)).card }

/-- The loop invariant for the propagation on a single-feeder tree: the root
is advanced, a pipe is advanced exactly when its start node is, and the
counters match the flags. -/
def prop_invariant (M : Fin nN → Fin nL → ℤ) (r : Fin nN)
    (s : PropState nN nL) : Prop :=
  s.nodeCalc r = true ∧
  (∀ l x, M x l = 1 → s.lineCalc l = s.nodeCalc x) ∧
  (∀ x, s.nodeCount x = if s.nodeCalc x then 1 else 0) ∧
  (∀ l, s.lineCount l = if s.lineCalc l then 1 else 0)

end LowTemp

namespace LowTemp

/-! # Theorems -/

/-! ## Coupling-matrix column invariant (claim C10) -/

theorem flip_entry_eq_one_iff (e : ℤ) : flip_entry e = 1 ↔ e = -1 := by
  unfold flip_entry
  split_ifs with h1 h2 <;> constructor <;> intro h <;>
    first | exact h.elim | omega

theorem flip_entry_eq_neg_one_iff (e : ℤ) : flip_entry e = -1 ↔ e = 1 := by
  unfold flip_entry
  split_ifs with h1 h2 <;> constructor <;> intro h <;>
    first | exact h.elim | omega

theorem flip_entry_signed {e : ℤ} (h : e = 1 ∨ e = -1 ∨ e = 0) :
    flip_entry e = 1 ∨ flip_entry e = -1 ∨ flip_entry e = 0 := by
  unfold flip_entry
  split_ifs <;> omega

/-- Claim C10 helper: the column invariant survives one column flip. -/
theorem flip_column_invariant {nN nL : ℕ} {M : Fin nN → Fin nL → ℤ}
    (l0 : Fin nL) (h : coupl_col_invariant M) :
    coupl_col_invariant (flip_column M l0) := by
  intro l
  by_cases hl : l = l0
  · subst hl
    obtain ⟨⟨xs, hxs, hxsu⟩, ⟨xe, hxe, hxeu⟩, hsgn⟩ := h l
    refine ⟨⟨xe, ?_, ?_⟩, ⟨xs, ?_, ?_⟩, ?_⟩
    · simp [flip_column, flip_entry_eq_one_iff, hxe]
    · intro y hy
      simp [flip_column, flip_entry_eq_one_iff] at hy
      exact hxeu y hy
    · simp [flip_column, flip_entry_eq_neg_one_iff, hxs]
    · intro y hy
      simp [flip_column, flip_entry_eq_neg_one_iff] at hy
      exact hxsu y hy
    · intro x
      simpa [flip_column] using flip_entry_signed (hsgn x)
  · simpa [flip_column, hl] using h l

/-- CLAIM C10: for a network in which every pipe has distinct start and end
nodes, the coupling matrix built by `make_matrix_coupl` has exactly one +1
and one -1 per column, and this invariant is preserved by every
direction-correction column flip and by the negation that initialises the
return coupling matrix. -/
theorem make_matrix_coupl_col_invariant {nN nL : ℕ}
    (node_start node_end : Fin nL → Fin nN)
    (hne : ∀ l, node_start l ≠ node_end l) :
    coupl_col_invariant (make_matrix_coupl node_start node_end) ∧
    (∀ (M : Fin nN → Fin nL → ℤ) (l0 : Fin nL),
      coupl_col_invariant M → coupl_col_invariant (flip_column M l0)) ∧
    (∀ M : Fin nN → Fin nL → ℤ,
      coupl_col_invariant M → coupl_col_invariant (matrix_coupl_return_init M)) := by
  refine ⟨?_, fun M l0 h => flip_column_invariant l0 h, ?_⟩
  · intro l
    refine ⟨⟨node_start l, ?_, ?_⟩, ⟨node_end l, ?_, ?_⟩, ?_⟩
    · simp [make_matrix_coupl, hne l]
    · intro y hy
      unfold make_matrix_coupl at hy
      split_ifs at hy with h1 h2
      · exact h2
      · exact absurd hy (by decide)
    · simp [make_matrix_coupl]
    · intro y hy
      unfold make_matrix_coupl at hy
      split_ifs at hy with h1 h2
      exact h1
    · intro x
      unfold make_matrix_coupl
      split_ifs <;> omega
  · intro M h l
    obtain ⟨⟨xs, hxs, hxsu⟩, ⟨xe, hxe, hxeu⟩, hsgn⟩ := h l
    refine ⟨⟨xe, by simp [matrix_coupl_return_init, hxe], ?_⟩,
      ⟨xs, by simp [matrix_coupl_return_init, hxs], ?_⟩, ?_⟩
    · intro y hy
      apply hxeu y
      simp only [matrix_coupl_return_init] at hy
      omega
    · intro y hy
      apply hxsu y
      simp only [matrix_coupl_return_init] at hy
      omega
    · intro x
      rcases hsgn x with h1 | h1 | h1 <;> simp [matrix_coupl_return_init, h1]

/-- Witness for C10 on a two-node, one-pipe network. -/
theorem make_matrix_coupl_col_invariant_witness :
    coupl_col_invariant (make_matrix_coupl (fun _ : Fin 1 => (0 : Fin 2)) (fun _ => 1)) ∧
    coupl_col_invariant
      (flip_column (make_matrix_coupl (fun _ : Fin 1 => (0 : Fin 2)) (fun _ => 1)) 0) ∧
    coupl_col_invariant
      (matrix_coupl_return_init
        (make_matrix_coupl (fun _ : Fin 1 => (0 : Fin 2)) (fun _ => 1))) := by
  have h := make_matrix_coupl_col_invariant (fun _ : Fin 1 => (0 : Fin 2)) (fun _ => 1)
    (by decide)
  exact ⟨h.1, h.2.1 _ 0 h.1, h.2.2 _ h.1⟩

/-! ## Direction-correction loop (claims C1 and C3) -/

theorem tol_neg_eq : tol_neg = -(1 / 10000000000) := by
  norm_num [tol_neg, mkRat, Rat.normalize]

theorem hydr_mat_iter_shift {nN nL : ℕ}
    (solver : (Fin nN → Fin nL → ℤ) → (Fin nL → ℚ))
    (M : Fin nN → Fin nL → ℤ) (j : ℕ) :
    hydr_mat_iter solver (flip_negative_columns M (solver M)) j
      = hydr_mat_iter solver M (j + 1) := by
  induction j with
  | zero => rfl
  | succ j ih => simp only [hydr_mat_iter, ih]

theorem solve_hydr_dir_loop_none_iff {nN nL : ℕ}
    (solver : (Fin nN → Fin nL → ℤ) → (Fin nL → ℚ))
    (M0 : Fin nN → Fin nL → ℤ) (fuel : ℕ) :
    solve_hydr_dir_loop solver M0 fuel = none ↔
      ∀ j < fuel, wrong_direction_count (solver (hydr_mat_iter solver M0 j)) ≠ 0 := by
  induction fuel generalizing M0 with
  | zero => simp [solve_hydr_dir_loop]
  | succ fuel ih =>
    rw [solve_hydr_dir_loop]
    by_cases h : wrong_direction_count (solver M0) = 0
    · rw [if_pos h]
      constructor
      · intro hc
        exact absurd hc (by simp)
      · intro hall
        exact absurd h (by simpa [hydr_mat_iter] using hall 0 (Nat.succ_pos fuel))
    · rw [if_neg h, ih]
      constructor
      · intro hall j hj
        cases j with
        | zero => simpa [hydr_mat_iter] using h
        | succ j =>
          have hj2 := hall j (by omega)
          rwa [hydr_mat_iter_shift] at hj2
      · intro hall j hj
        have hj2 := hall (j + 1) (by omega)
        rwa [← hydr_mat_iter_shift] at hj2

theorem solve_hydr_dir_loop_some {nN nL : ℕ}
    (solver : (Fin nN → Fin nL → ℤ) → (Fin nL → ℚ))
    (M0 : Fin nN → Fin nL → ℤ) (fuel : ℕ)
    (p : (Fin nN → Fin nL → ℤ) × (Fin nL → ℚ))
    (h : solve_hydr_dir_loop solver M0 fuel = some p) :
    ∃ K, K < fuel ∧
      (∀ j < K, wrong_direction_count (solver (hydr_mat_iter solver M0 j)) ≠ 0) ∧
      wrong_direction_count (solver (hydr_mat_iter solver M0 K)) = 0 ∧
      p = (hydr_mat_iter solver M0 K, solver (hydr_mat_iter solver M0 K)) := by
  induction fuel generalizing M0 with
  | zero => simp [solve_hydr_dir_loop] at h
  | succ fuel ih =>
    rw [solve_hydr_dir_loop] at h
    by_cases hc : wrong_direction_count (solver M0) = 0
    · rw [if_pos hc] at h
      refine ⟨0, Nat.succ_pos fuel, ?_, by simpa [hydr_mat_iter] using hc, ?_⟩
      · intro j hj
        exact absurd hj (Nat.not_lt_zero j)
      · simpa [hydr_mat_iter] using (Option.some_injective _ h).symm
    · rw [if_neg hc] at h
      obtain ⟨K, hK, hall, hstop, hp⟩ := ih _ h
      refine ⟨K + 1, by omega, ?_, ?_, ?_⟩
      · intro j hj
        cases j with
        | zero => simpa [hydr_mat_iter] using hc
        | succ j =>
          have hj2 := hall j (by omega)
          rwa [hydr_mat_iter_shift] at hj2
      · rwa [hydr_mat_iter_shift] at hstop
      · rwa [hydr_mat_iter_shift] at hp

theorem hydr_mat_iter_signed {nN nL : ℕ}
    (solver : (Fin nN → Fin nL → ℤ) → (Fin nL → ℚ))
    (M0 : Fin nN → Fin nL → ℤ)
    (hM : ∀ x l, M0 x l = 1 ∨ M0 x l = -1 ∨ M0 x l = 0) (k : ℕ) :
    ∀ x l, hydr_mat_iter solver M0 k x l = 1 ∨
      hydr_mat_iter solver M0 k x l = -1 ∨ hydr_mat_iter solver M0 k x l = 0 := by
  induction k with
  | zero => exact hM
  | succ k ih =>
    intro x l
    simp only [hydr_mat_iter, flip_negative_columns]
    split_ifs
    · exact flip_entry_signed (ih x l)
    · exact ih x l

theorem neg_flip_count_succ {nN nL : ℕ}
    (solver : (Fin nN → Fin nL → ℤ) → (Fin nL → ℚ))
    (M0 : Fin nN → Fin nL → ℤ) (k : ℕ) (l : Fin nL) :
    ((Finset.range (k + 1)).filter
        (fun j => hydr_solve_at solver M0 j l < tol_neg)).card =
      ((Finset.range k).filter
        (fun j => hydr_solve_at solver M0 j l < tol_neg)).card +
      (if hydr_solve_at solver M0 k l < tol_neg then 1 else 0) := by
  rw [Finset.range_succ, Finset.filter_insert]
  split_ifs with h
  · rw [Finset.card_insert_of_not_mem (by simp)]
  · omega

theorem hydr_mat_iter_parity {nN nL : ℕ}
    (solver : (Fin nN → Fin nL → ℤ) → (Fin nL → ℚ))
    (M0 : Fin nN → Fin nL → ℤ)
    (hM : ∀ x l, M0 x l = 1 ∨ M0 x l = -1 ∨ M0 x l = 0) (k : ℕ)
    (x : Fin nN) (l : Fin nL) :
    hydr_mat_iter solver M0 k x l =
      (-1) ^ (((Finset.range k).filter
        (fun j => hydr_solve_at solver M0 j l < tol_neg)).card) * M0 x l := by
  induction k with
  | zero => simp [hydr_mat_iter]
  | succ k ih =>
    have hsgn := hydr_mat_iter_signed solver M0 hM k x l
    rw [neg_flip_count_succ]
    simp only [hydr_solve_at] at ih ⊢
    simp only [hydr_mat_iter, flip_negative_columns]
    by_cases hneg : solver (hydr_mat_iter solver M0 k) l < tol_neg
    · have hflip : flip_entry (hydr_mat_iter solver M0 k x l) =
          -(hydr_mat_iter solver M0 k x l) := by
        rcases hsgn with h | h | h <;> simp [flip_entry, h]
      simp only [if_pos hneg]
      rw [hflip, ih]
      ring
    · simp only [if_neg hneg, ih, Nat.add_zero]

/-- CLAIM C1 (amended): when the direction-correction loop of
`solve_network_hydr` returns, every solved pipe mass flow is at least -1e-10,
and the final coupling-matrix entry of every pipe equals the initially
assumed entry times (-1) to the number of executed pre-correction solves that
yielded a negative mass flow for that pipe; so a column differs from the
assumed orientation exactly when that number is odd (not when it is merely
positive). -/
theorem solve_network_hydr_dir_correction {nN nL : ℕ}
    (solver : (Fin nN → Fin nL → ℤ) → (Fin nL → ℚ))
    (M0 : Fin nN → Fin nL → ℤ)
    (hM : ∀ x l, M0 x l = 1 ∨ M0 x l = -1 ∨ M0 x l = 0)
    (fuel : ℕ) (p : (Fin nN → Fin nL → ℤ) × (Fin nL → ℚ))
    (hrun : solve_hydr_dir_loop solver M0 fuel = some p) :
    (∀ l, tol_neg ≤ p.2 l) ∧
    (∀ x l, p.1 x l = (-1) ^ (neg_solve_count solver M0 fuel l) * M0 x l) := by
  obtain ⟨K, hKfuel, hall, hstop, hp⟩ := solve_hydr_dir_loop_some solver M0 fuel p hrun
  have hstop_flows : ∀ l : Fin nL,
      ¬ (solver (hydr_mat_iter solver M0 K) l < tol_neg) := by
    intro l hl
    have h0 : (Finset.univ.filter
        (fun l => solver (hydr_mat_iter solver M0 K) l < tol_neg)) = ∅ :=
      Finset.card_eq_zero.mp hstop
    have hmem : l ∈ (Finset.univ.filter
        (fun l => solver (hydr_mat_iter solver M0 K) l < tol_neg)) := by
      simp [hl]
    rw [h0] at hmem
    exact absurd hmem (Finset.not_mem_empty l)
  have hcount : ∀ l, neg_solve_count solver M0 fuel l =
      ((Finset.range K).filter
        (fun j => hydr_solve_at solver M0 j l < tol_neg)).card := by
    intro l
    unfold neg_solve_count
    congr 1
    ext k
    simp only [Finset.mem_filter, Finset.mem_range]
    constructor
    · rintro ⟨hk, hnone, hneg⟩
      refine ⟨?_, hneg⟩
      have hnone2 := (solve_hydr_dir_loop_none_iff solver M0 k).mp
        (Option.isNone_iff_eq_none.mp hnone)
      rcases Nat.lt_or_ge k K with hlt | hge
      · exact hlt
      · rcases Nat.eq_or_lt_of_le hge with heq | hlt
        · exact absurd hneg (heq ▸ hstop_flows l)
        · exact absurd hstop (hnone2 K hlt)
    · rintro ⟨hk, hneg⟩
      refine ⟨by omega, ?_, hneg⟩
      rw [Option.isNone_iff_eq_none, solve_hydr_dir_loop_none_iff]
      intro j hj
      exact hall j (by omega)
  constructor
  · intro l
    have hl := hstop_flows l
    rw [hp]
    exact not_lt.mp hl
  · intro x l
    rw [hp, hcount l]
    exact hydr_mat_iter_parity solver M0 hM K x l

/-- Witness for the amended C1 theorem on the one-pipe instance. -/
theorem solve_network_hydr_dir_correction_witness :
    (∀ l, tol_neg ≤
      (((trivM0, trivFlow) : (Fin 1 → Fin 1 → ℤ) × (Fin 1 → ℚ))).2 l) ∧
    (∀ x l, (((trivM0, trivFlow) : (Fin 1 → Fin 1 → ℤ) × (Fin 1 → ℚ))).1 x l =
      (-1) ^ (neg_solve_count trivSolver trivM0 1 l) * trivM0 x l) :=
  solve_network_hydr_dir_correction trivSolver trivM0 (by decide) 1
    (trivM0, trivFlow)
    (by unfold solve_hydr_dir_loop
        rw [if_pos (show wrong_direction_count (trivSolver trivM0) = 0 by decide)]
        rfl)

/-- COUNTEREXAMPLE to C1 as stated: on `exM0`/`exSolver` the loop terminates,
pipe 0 ends with its initially assumed column (it was flipped twice), yet the
very first pre-correction solve yielded a negative flow for pipe 0 - so
"final orientation differs exactly when a pre-correction solve was negative"
is false. -/
theorem solve_network_hydr_flip_iff_neg_cex :
    ¬ final_flip_iff_negative exSolver exM0 5 := by
  intro h
  have hmap : (solve_hydr_dir_loop exSolver exM0 5).map
      (fun p => (p.1 0 0, p.1 1 0, p.2 0)) = some (1, -1, 1) := by decide
  cases hE : solve_hydr_dir_loop exSolver exM0 5 with
  | none =>
    rw [hE, Option.map_none'] at hmap
    exact Option.noConfusion hmap
  | some p =>
    rw [hE] at hmap
    simp only [Option.map_some', Option.some_inj, Prod.mk.injEq] at hmap
    have hr : ∃ k, (solve_hydr_dir_loop exSolver exM0 k).isNone = true ∧
        hydr_solve_at exSolver exM0 k 0 < tol_neg := by
      refine ⟨0, by decide, by decide⟩
    obtain ⟨x, hx⟩ := (h p hE 0).mpr hr
    fin_cases x
    · exact hx (by show p.1 0 0 = exM0 0 0; rw [hmap.1]; decide)
    · exact hx (by show p.1 1 0 = exM0 1 0; rw [hmap.2.1]; decide)

/-- CLAIM C3, evaluated at the failing input: the direction-correction loop
of `solve_network_hydr` has no maximum-iteration cutoff, so when the solver
keeps reporting a negative flow the loop never finishes, for any number of
iterations - the run cycles instead of aborting with a fatal error. -/
theorem solve_network_hydr_no_iteration_cutoff :
    ∀ fuel : ℕ, solve_hydr_dir_loop stuckSolver stuckM0 fuel = none := by
  have key : ∀ (fuel : ℕ) (M : Fin 2 → Fin 1 → ℤ),
      solve_hydr_dir_loop stuckSolver M fuel = none := by
    intro fuel
    induction fuel with
    | zero => intro M; rfl
    | succ fuel ih =>
      intro M
      rw [solve_hydr_dir_loop]
      have hc : wrong_direction_count (stuckSolver M) ≠ 0 := by
        show wrong_direction_count (fun _ : Fin 1 => (-1 : ℚ)) ≠ 0
        decide
      rw [if_neg hc]
      exact ih _
  exact fun fuel => key fuel stuckM0

/-! ## Continuity residuals (claim C2) -/

theorem continuity_equ_forerun_eq {nN nL : ℕ} (M : Fin nN → Fin nL → ℤ)
    (m_int : Fin nL → ℚ) (m_ext : Fin nN → ℚ) (x : Fin nN) :
    continuity_equ_forerun M m_int m_ext x =
      (∑ l, (M x l : ℚ) * m_int l) - m_ext x := by
  unfold continuity_equ_forerun
  congr 1
  · rw [Finset.sum_filter]
    apply Finset.sum_congr rfl
    intro l _
    by_cases hl : M x l = 0
    · simp [hl]
    · simp [hl]
  · by_cases hx : m_ext x = 0 <;> simp [hx]

theorem continuity_equ_return_eq {nN nL : ℕ} (M : Fin nN → Fin nL → ℤ)
    (m_int : Fin nL → ℚ) (m_ext : Fin nN → ℚ) (x : Fin nN) :
    continuity_equ_return M m_int m_ext x =
      (∑ l, (M x l : ℚ) * m_int l) - m_ext x := by
  unfold continuity_equ_return
  congr 1
  · rw [Finset.sum_filter]
    apply Finset.sum_congr rfl
    intro l _
    by_cases hl : M x l = 0
    · simp [hl]
    · simp [hl]
  · by_cases hx : m_ext x = 0 <;> simp [hx]

/-- CLAIM C2: the continuity residual that `equ_network_forerun` assembles for
a node (and symmetrically `equ_network_return`) equals the signed sum of the
incident pipe mass flows minus the external mass flow (subtracting nothing
for a distributor with zero external flow changes nothing); hence at a root
of the assembled system the signed sum of adjoining pipe mass flows equals
the external mass flow of every node. -/
theorem equ_network_continuity_at_root {nN nL : ℕ}
    (Mf Mr : Fin nN → Fin nL → ℤ) (m_int_f m_int_r : Fin nL → ℚ)
    (m_ext_f m_ext_r : Fin nN → ℚ) (p_f p_r h_coord : Fin nN → ℚ)
    (rho g : ℚ) (dia lambd len zeta : Fin nL → ℚ) :
    (∀ x, continuity_equ_forerun Mf m_int_f m_ext_f x =
        (∑ l, (Mf x l : ℚ) * m_int_f l) - m_ext_f x ∧
      continuity_equ_return Mr m_int_r m_ext_r x =
        (∑ l, (Mr x l : ℚ) * m_int_r l) - m_ext_r x) ∧
    ((∀ e ∈ equ_network_forerun Mf m_int_f m_ext_f p_f h_coord rho g
        dia lambd len zeta, e = 0) →
      ∀ x, (∑ l, (Mf x l : ℚ) * m_int_f l) = m_ext_f x) ∧
    ((∀ e ∈ equ_network_return Mr m_int_r m_ext_r p_r h_coord rho g
        dia lambd len zeta, e = 0) →
      ∀ x, (∑ l, (Mr x l : ℚ) * m_int_r l) = m_ext_r x) := by
  refine ⟨fun x => ⟨continuity_equ_forerun_eq Mf m_int_f m_ext_f x,
    continuity_equ_return_eq Mr m_int_r m_ext_r x⟩, ?_, ?_⟩
  · intro hroot x
    have hmem : continuity_equ_forerun Mf m_int_f m_ext_f x ∈
        equ_network_forerun Mf m_int_f m_ext_f p_f h_coord rho g
          dia lambd len zeta := by
      unfold equ_network_forerun
      exact List.mem_append_left _ (List.mem_map_of_mem _ (List.mem_finRange x))
    have h0 := hroot _ hmem
    rw [continuity_equ_forerun_eq] at h0
    linarith
  · intro hroot x
    have hmem : continuity_equ_return Mr m_int_r m_ext_r x ∈
        equ_network_return Mr m_int_r m_ext_r p_r h_coord rho g
          dia lambd len zeta := by
      unfold equ_network_return
      exact List.mem_append_left _ (List.mem_map_of_mem _ (List.mem_finRange x))
    have h0 := hroot _ hmem
    rw [continuity_equ_return_eq] at h0
    linarith

/-- Witness for C2 at the trivial root instance. -/
theorem equ_network_continuity_at_root_witness :
    (∑ l : Fin 0, ((c2M 0 l : ℚ)) * c2pipe l) = c2node 0 ∧
    (∑ l : Fin 0, ((c2M 0 l : ℚ)) * c2pipe l) = c2node 0 := by
  have h := equ_network_continuity_at_root c2M c2M c2pipe c2pipe c2node c2node
    c2node c2node c2node 1 1 c2pipe c2pipe c2pipe c2pipe
  refine ⟨h.2.1 ?_ 0, h.2.2 ?_ 0⟩
  · intro e he
    simp [equ_network_forerun, continuity_equ_forerun, c2node,
      List.finRange] at he
    exact he
  · intro e he
    simp [equ_network_return, continuity_equ_return, c2node,
      List.finRange] at he
    exact he

/-! ## Reference-node validation (claim C9) -/

theorem read_p_ref_aux_length (rows : List NodeRow) :
    ∀ i t, read_p_ref_aux i rows = Except.ok t →
      t.length = rows.countP (fun r => r.ref_flag) := by
  induction rows with
  | nil =>
    intro i t h
    rw [read_p_ref_aux] at h
    cases h
    rfl
  | cons a rs ih =>
    intro i t h
    rw [read_p_ref_aux] at h
    rw [List.countP_cons]
    by_cases hf : a.ref_flag
    · rw [if_pos hf] at h
      by_cases hn : a.feeder_id = none
      · rw [if_pos hn] at h
        exact absurd h (by simp)
      · rw [if_neg hn] at h
        cases hrec : read_p_ref_aux (i + 1) rs with
        | error e =>
          rw [hrec] at h
          exact absurd h (by simp [Except.map])
        | ok t2 =>
          rw [hrec] at h
          simp only [Except.map, Except.ok.injEq] at h
          subst h
          simp [hf, ih (i + 1) t2 hrec]
    · rw [if_neg hf] at h
      simp only [hf, if_false, Nat.add_zero]
      exact ih (i + 1) t h

theorem read_p_ref_aux_error (rows : List NodeRow) :
    ∀ i, (∃ r ∈ rows, r.ref_flag = true ∧ r.feeder_id = none) →
      ∃ e, read_p_ref_aux i rows = Except.error e := by
  induction rows with
  | nil =>
    intro i h
    obtain ⟨r, hr, _⟩ := h
    exact absurd hr (List.not_mem_nil r)
  | cons a rs ih =>
    intro i h
    obtain ⟨r, hr, hflag, hnone⟩ := h
    rw [read_p_ref_aux]
    rcases List.mem_cons.mp hr with rfl | hr2
    · rw [if_pos hflag, if_pos hnone]
      exact ⟨(), rfl⟩
    · by_cases hf : a.ref_flag
      · rw [if_pos hf]
        by_cases hn : a.feeder_id = none
        · rw [if_pos hn]
          exact ⟨(), rfl⟩
        · rw [if_neg hn]
          obtain ⟨e, he⟩ := ih (i + 1) ⟨r, hr2, hflag, hnone⟩
          rw [he]
          exact ⟨e, rfl⟩
      · rw [if_neg hf]
        exact ih (i + 1) ⟨r, hr2, hflag, hnone⟩

/-- CLAIM C9: if zero nodes or more than one node carry the
reference-pressure flag, `main_program` stops before the first hydraulic
solve is attempted; and a node flagged as pressure reference that is not
also a feeder raises an exception already while the topology is read. -/
theorem p_ref_validation (rows : List NodeRow) :
    ((rows.countP (fun r => r.ref_flag) = 0 ∨
        1 < rows.countP (fun r => r.ref_flag)) →
      ∀ pr, main_program_until_first_solve rows ≠ MainOutcome.solveStarted pr) ∧
    ((∃ r ∈ rows, r.ref_flag = true ∧ r.feeder_id = none) →
      ∃ e, read_p_ref_aux 0 rows = Except.error e) := by
  constructor
  · intro hcnt pr
    unfold main_program_until_first_solve
    cases hread : read_p_ref_aux 0 rows with
    | error e =>
      dsimp only
      exact fun hcontra => MainOutcome.noConfusion hcontra
    | ok t =>
      have hlen := read_p_ref_aux_length rows 0 t hread
      dsimp only
      rcases hcnt with h0 | h2
      · rw [if_pos (by omega)]
        exact fun hcontra => MainOutcome.noConfusion hcontra
      · rw [if_neg (by omega), if_pos (by omega)]
        exact fun hcontra => MainOutcome.noConfusion hcontra
  · exact read_p_ref_aux_error rows 0

/-- Witness for C9: two reference-flagged rows never reach a solve, and a
non-feeder reference row errors during reading. -/
theorem p_ref_validation_witness :
    main_program_until_first_solve [c9row_ok, c9row_ok] ≠
      MainOutcome.solveStarted [0, 1] ∧
    ∃ e, read_p_ref_aux 0 [c9row_bad] = Except.error e :=
  ⟨(p_ref_validation [c9row_ok, c9row_ok]).1 (Or.inr (by decide)) [0, 1],
   (p_ref_validation [c9row_bad]).2 ⟨c9row_bad, by simp, rfl, rfl⟩⟩

/-! ## Consumer energy balance on the return side (claim C5) -/

/-- CLAIM C5 (amended): at a consumer that is a return-side source (positive
external return flow, no incoming return pipe) the stored return temperature
is T_f - Q/(m c_p) with Q converted from kW to W, clipped below at the soil
temperature, exactly as claimed; but a consumer processed during return
propagation (it has incoming return pipes) instead stores the
mass-flow-weighted average of the unclipped energy-balance temperature and
the incoming pipe outlet temperatures (with fallback to the previous value
on zero summed flow) - the soil-clipped value is computed and immediately
overwritten there. -/
theorem consumer_return_energy_balance {nN nL : ℕ} (M : Fin nN → Fin nL → ℤ)
    (m_ext_return m_ext_trans : Fin nN → ℚ) (t_last m_trans : Fin nL → ℚ)
    (t_forerun_now t_forerun_prev t_return_prev : Fin nN → ℚ)
    (Q_dot_sim V_dot_sim : Fin nN → ℚ) (feed_in : Fin nN → Bool)
    (t_hyd : ℕ) (temp_soil rho c_p : ℚ) (x : Fin nN) (hrho : rho ≠ 0) :
    (feed_in x = false → 0 < m_ext_return x → in_degree M x = 0 →
      return_seed_node_update M m_ext_return feed_in t_hyd t_forerun_now
          t_forerun_prev t_return_prev Q_dot_sim temp_soil rho c_p x =
        some (Except.ok
          (if t_forerun_now x - Q_dot_sim x * 1000 / (m_ext_return x * c_p) <
              temp_soil then temp_soil
           else t_forerun_now x - Q_dot_sim x * 1000 / (m_ext_return x * c_p)))) ∧
    (feed_in x = false → 0 < m_ext_trans x →
      return_prop_node_update M m_ext_trans t_last m_trans t_forerun_now
          t_return_prev Q_dot_sim V_dot_sim feed_in rho c_p x =
        some (if m_ext_trans x + mix_sum_m M m_trans x ≠ 0 then
            ((t_forerun_now x - Q_dot_sim x * 1000 /
                (V_dot_sim x / 1000 * rho * c_p)) * m_ext_trans x +
              mix_sum_t M t_last m_trans x) /
            (m_ext_trans x + mix_sum_m M m_trans x)
          else t_return_prev x)) := by
  constructor
  · intro hfeed hpos hdeg
    have harg : (m_ext_return x / rho * 1000) / 1000 * rho * c_p =
        m_ext_return x * c_p := by
      field_simp
      ring
    unfold return_seed_node_update
    rw [if_pos ⟨le_of_lt hpos, hdeg⟩, if_neg (ne_of_gt hpos), if_pos hfeed, harg]
  · intro hfeed hpos
    unfold return_prop_node_update
    rw [if_neg (ne_of_gt hpos), if_pos ⟨hpos, hfeed⟩]

/-- COUNTEREXAMPLE to C5 as stated: consumer node 1 of `chainM` is processed
during return propagation with mass flow 1, forerun temperature 60, heat
flow 160 kW, c_p 4000 and soil temperature 30. The energy balance gives
60 - 160000/4000 = 20, which is below the soil temperature, so the claim
requires the stored value to be exactly 30; the code stores the mixing value
(20 * 1 + 50 * 1) / 2 = 35. -/
theorem consumer_return_energy_balance_cex :
    return_prop_node_update chainM (fun _ => 1) (fun _ => 50) (fun _ => 1)
        (fun _ => 60) (fun _ => 0) (fun _ => 160) (fun _ => 1) (fun _ => false)
        1000 4000 1 = some 35 ∧
    (60 : ℚ) - 160 * 1000 / (1 / 1000 * 1000 * 4000) = 20 ∧
    ((20 : ℚ) < 30) ∧ ((35 : ℚ) ≠ 30) := by
  have hfilter : Finset.univ.filter (fun l => chainM 1 l = -1) =
      (Finset.univ : Finset (Fin 1)) := by decide
  have hs1 : mix_sum_t chainM (fun _ => (50 : ℚ)) (fun _ => 1) 1 = 50 := by
    unfold mix_sum_t
    rw [hfilter]
    simp
  have hs2 : mix_sum_m chainM (fun _ => (1 : ℚ)) 1 = 1 := by
    unfold mix_sum_m
    rw [hfilter]
    simp
  refine ⟨?_, by norm_num, by norm_num, by norm_num⟩
  simp only [return_prop_node_update, hs1, hs2]
  norm_num

/-- Witness for the amended C5 theorem: the seed-consumer branch on an
isolated consumer node, and the propagation-consumer branch on `chainM`. -/
theorem consumer_return_energy_balance_witness :
    return_seed_node_update soloM (fun _ => 1) (fun _ => false) 0 (fun _ => 60)
        (fun _ => 0) (fun _ => 0) (fun _ => 160) 30 1000 4000 0 =
      some (Except.ok (if (60 : ℚ) - 160 * 1000 / (1 * 4000) < 30 then (30 : ℚ)
        else 60 - 160 * 1000 / (1 * 4000))) ∧
    return_prop_node_update chainM (fun _ => 1) (fun _ => 50) (fun _ => 1)
        (fun _ => 60) (fun _ => 0) (fun _ => 160) (fun _ => 1) (fun _ => false)
        1000 4000 1 =
      some (if (1 : ℚ) + mix_sum_m chainM (fun _ => 1) 1 ≠ 0 then
          (((60 : ℚ) - 160 * 1000 / (1 / 1000 * 1000 * 4000)) * 1 +
            mix_sum_t chainM (fun _ => 50) (fun _ => 1) 1) /
          (1 + mix_sum_m chainM (fun _ => 1) 1)
        else (0 : ℚ)) :=
  ⟨(consumer_return_energy_balance soloM (fun _ => 1) (fun _ => 1) Fin.elim0
      Fin.elim0 (fun _ => 60) (fun _ => 0) (fun _ => 0) (fun _ => 160)
      (fun _ => 1) (fun _ => false) 0 30 1000 4000 0 (by norm_num)).1
      rfl (by norm_num) (by decide),
   (consumer_return_energy_balance chainM (fun _ => 1) (fun _ => 1)
      (fun _ => 50) (fun _ => 1) (fun _ => 60) (fun _ => 0) (fun _ => 0)
      (fun _ => 160) (fun _ => 1) (fun _ => false) 0 30 1000 4000 1
      (by norm_num)).2 rfl (by norm_num)⟩

/-! ## Forerun mixing law (claim C6) -/

/-- CLAIM C6 (code evaluation): a ready forerun node with more than one
incoming pipe and nonpositive external flow receives the flow-weighted
average of the incoming outlet temperatures; a feeder node (positive
external flow) that is the pressure-reference feeder additionally includes
its feeder temperature weighted by its external mass flow
`V_dot_feed * rho / 1000`; but a feeder that is NOT the pressure reference
subscripts the per-step scalar `node.m_ext_forerun[x]` with a time index
(thermal_equ_system.py, line 260) and crashes with `TypeError`, so no
temperature is produced (`none`) - the claimed weighted average with the
external mass flow is never computed on that path. -/
theorem forerun_mixing_law {nN nL : ℕ} (M : Fin nN → Fin nL → ℤ)
    (m_ext_trans : Fin nN → ℚ) (t_last m_trans : Fin nL → ℚ)
    (temp_flow_feed : Fin nN → ℚ) (feed_in p_ref : Fin nN → Bool)
    (V_dot_feed m_ext_scalar : Fin nN → ℚ) (rho : ℚ) (t_hyd : ℕ)
    (x : Fin nN) (hdeg : 1 < in_degree M x) :
    ((m_ext_trans x = 0 ∨ m_ext_trans x < 0) →
      forerun_node_update M m_ext_trans t_last m_trans temp_flow_feed feed_in
          p_ref V_dot_feed m_ext_scalar rho t_hyd x =
        some (mix_sum_t M t_last m_trans x / mix_sum_m M m_trans x)) ∧
    (0 < m_ext_trans x → feed_in x = true → p_ref x = true →
      forerun_node_update M m_ext_trans t_last m_trans temp_flow_feed feed_in
          p_ref V_dot_feed m_ext_scalar rho t_hyd x =
        some ((temp_flow_feed x * (V_dot_feed x * rho / 1000) +
            mix_sum_t M t_last m_trans x) /
          (V_dot_feed x * rho / 1000 + mix_sum_m M m_trans x))) ∧
    (0 < m_ext_trans x → ¬(feed_in x = true ∧ p_ref x = true) →
      forerun_node_update M m_ext_trans t_last m_trans temp_flow_feed feed_in
          p_ref V_dot_feed m_ext_scalar rho t_hyd x = none) := by
  have hdeg1 : in_degree M x ≠ 1 := by omega
  have hdeg0 : 0 < in_degree M x := by omega
  refine ⟨?_, ?_, ?_⟩
  · rintro (h0 | hneg)
    · unfold forerun_node_update
      rw [if_pos h0, if_neg hdeg1]
    · unfold forerun_node_update
      rw [if_neg (ne_of_lt hneg), if_pos hneg, if_neg hdeg1]
  · intro hpos hfeed href
    unfold forerun_node_update
    rw [if_neg (ne_of_gt hpos), if_neg (not_lt.mpr (le_of_lt hpos)),
      if_pos hdeg0, if_pos (⟨hfeed, href⟩ : feed_in x ∧ p_ref x)]
    rfl
  · intro hpos hnot
    unfold forerun_node_update
    rw [if_neg (ne_of_gt hpos), if_neg (not_lt.mpr (le_of_lt hpos)),
      if_pos hdeg0, if_neg hnot]
    rfl

/-- Witness and failing-input evaluation for C6 on the two-pipe merge node:
distributor mixing, reference-feeder mixing, and the crashing
non-reference-feeder path. -/
theorem forerun_mixing_law_witness :
    forerun_node_update mergeM (fun _ => 0) (fun _ => 40) (fun _ => 1)
        (fun _ => 80) (fun _ => false) (fun _ => false) (fun _ => 0)
        (fun _ => 0) 1000 0 2 =
      some (mix_sum_t mergeM (fun _ => 40) (fun _ => 1) 2 /
        mix_sum_m mergeM (fun _ => 1) 2) ∧
    forerun_node_update mergeM (fun _ => 1) (fun _ => 40) (fun _ => 1)
        (fun _ => 80) (fun _ => true) (fun _ => true) (fun _ => 2)
        (fun _ => 1) 1000 0 2 =
      some (((80 : ℚ) * ((2 : ℚ) * 1000 / 1000) +
          mix_sum_t mergeM (fun _ => 40) (fun _ => 1) 2) /
        ((2 : ℚ) * 1000 / 1000 + mix_sum_m mergeM (fun _ => 1) 2)) ∧
    forerun_node_update mergeM (fun _ => 1) (fun _ => 40) (fun _ => 1)
        (fun _ => 80) (fun _ => true) (fun _ => false) (fun _ => 2)
        (fun _ => 1) 1000 0 2 = none :=
  ⟨(forerun_mixing_law mergeM (fun _ => 0) (fun _ => 40) (fun _ => 1)
      (fun _ => 80) (fun _ => false) (fun _ => false) (fun _ => 0)
      (fun _ => 0) 1000 0 2 (by decide)).1 (Or.inl rfl),
   (forerun_mixing_law mergeM (fun _ => 1) (fun _ => 40) (fun _ => 1)
      (fun _ => 80) (fun _ => true) (fun _ => true) (fun _ => 2)
      (fun _ => 1) 1000 0 2 (by decide)).2.1 (by norm_num) rfl rfl,
   (forerun_mixing_law mergeM (fun _ => 1) (fun _ => 40) (fun _ => 1)
      (fun _ => 80) (fun _ => true) (fun _ => false) (fun _ => 2)
      (fun _ => 1) 1000 0 2 (by decide)).2.2 (by norm_num) (by simp)⟩

/-! ## Zero-flow guards in the mixing computations (claim C7) -/

/-- CLAIM C7 (amended): only the return-side distributor and consumer mixing
computations fall back to the previously computed return temperature when
the summed mass flow is zero; the forerun mixing computations and the
return-side feeder mixing evaluate the weighted-average quotient with no
guard at all. -/
theorem mixing_zero_flow_guard {nN nL : ℕ} (M : Fin nN → Fin nL → ℤ)
    (m_ext_trans_f m_ext_trans_r : Fin nN → ℚ) (t_last m_trans : Fin nL → ℚ)
    (t_forerun_now t_return_prev : Fin nN → ℚ)
    (Q_dot_sim V_dot_sim : Fin nN → ℚ) (temp_flow_feed : Fin nN → ℚ)
    (feed_in p_ref : Fin nN → Bool) (V_dot_feed m_ext_scalar : Fin nN → ℚ)
    (rho c_p : ℚ) (t_hyd : ℕ) (x : Fin nN) :
    (m_ext_trans_r x = 0 → in_degree M x ≠ 1 → mix_sum_m M m_trans x = 0 →
      return_prop_node_update M m_ext_trans_r t_last m_trans t_forerun_now
          t_return_prev Q_dot_sim V_dot_sim feed_in rho c_p x =
        some (t_return_prev x)) ∧
    (0 < m_ext_trans_r x → feed_in x = false →
      m_ext_trans_r x + mix_sum_m M m_trans x = 0 →
      return_prop_node_update M m_ext_trans_r t_last m_trans t_forerun_now
          t_return_prev Q_dot_sim V_dot_sim feed_in rho c_p x =
        some (t_return_prev x)) ∧
    (m_ext_trans_f x = 0 → in_degree M x ≠ 1 →
      forerun_node_update M m_ext_trans_f t_last m_trans temp_flow_feed
          feed_in p_ref V_dot_feed m_ext_scalar rho t_hyd x =
        some (mix_sum_t M t_last m_trans x / mix_sum_m M m_trans x)) ∧
    (m_ext_trans_r x ≠ 0 → ¬(0 < m_ext_trans_r x ∧ feed_in x = false) →
      0 < in_degree M x →
      return_prop_node_update M m_ext_trans_r t_last m_trans t_forerun_now
          t_return_prev Q_dot_sim V_dot_sim feed_in rho c_p x =
        some (mix_sum_t M t_last m_trans x / mix_sum_m M m_trans x)) := by
  refine ⟨?_, ?_, ?_, ?_⟩
  · intro h0 hdeg1 hzero
    unfold return_prop_node_update
    rw [if_pos h0, if_neg hdeg1, if_neg (fun hc => hc hzero)]
  · intro hpos hfeed hzero
    unfold return_prop_node_update
    rw [if_neg (ne_of_gt hpos), if_pos ⟨hpos, hfeed⟩,
      if_neg (fun hc => hc hzero)]
  · intro h0 hdeg1
    unfold forerun_node_update
    rw [if_pos h0, if_neg hdeg1]
  · intro hne hnot hdeg
    unfold return_prop_node_update
    rw [if_neg hne, if_neg hnot, if_pos hdeg]

/-- COUNTEREXAMPLE to C7 as stated: in the forerun mixing at a node with two
incoming pipes of zero mass flow, the code has no fallback branch: the
weighted-average quotient is evaluated with a zero denominator (0/0, NaN in
the numpy source; 0 under the rational embedding of division), and the
stored result is not the previously computed temperature (55 here) - the
claimed guard does not exist on the forerun side. -/
theorem mixing_zero_flow_guard_cex :
    mix_sum_m mergeM (fun _ => (0 : ℚ)) 2 = 0 ∧
    forerun_node_update mergeM (fun _ => 0) (fun _ => 50) (fun _ => 0)
        (fun _ => 0) (fun _ => false) (fun _ => false) (fun _ => 0)
        (fun _ => 0) 1000 0 2 =
      some (mix_sum_t mergeM (fun _ => 50) (fun _ => 0) 2 /
        mix_sum_m mergeM (fun _ => 0) 2) ∧
    forerun_node_update mergeM (fun _ => 0) (fun _ => 50) (fun _ => 0)
        (fun _ => 0) (fun _ => false) (fun _ => false) (fun _ => 0)
        (fun _ => 0) 1000 0 2 = some 0 ∧
    (0 : ℚ) ≠ 55 := by
  have h2 : forerun_node_update mergeM (fun _ => 0) (fun _ => (50 : ℚ))
      (fun _ => 0) (fun _ => 0) (fun _ => false) (fun _ => false) (fun _ => 0)
      (fun _ => 0) 1000 0 2 =
      some (mix_sum_t mergeM (fun _ => 50) (fun _ => 0) 2 /
        mix_sum_m mergeM (fun _ => 0) 2) := by
    unfold forerun_node_update
    rw [if_pos rfl, if_neg (by decide : ¬ in_degree mergeM 2 = 1)]
  refine ⟨by simp [mix_sum_m], h2, ?_, by norm_num⟩
  rw [h2]
  simp [mix_sum_t, mix_sum_m]

/-- Witness for the amended C7 theorem: the guarded return distributor
branch falls back to the previous value 55 at zero flow; the unguarded
forerun branch and return feeder branch produce the raw quotient. -/
theorem mixing_zero_flow_guard_witness :
    return_prop_node_update mergeM (fun _ => 0) (fun _ => 50) (fun _ => 0)
        (fun _ => 60) (fun _ => 55) (fun _ => 0) (fun _ => 0)
        (fun _ => false) 1000 4000 2 = some 55 ∧
    forerun_node_update mergeM (fun _ => 0) (fun _ => 50) (fun _ => 0)
        (fun _ => 0) (fun _ => false) (fun _ => false) (fun _ => 0)
        (fun _ => 0) 1000 0 2 =
      some (mix_sum_t mergeM (fun _ => 50) (fun _ => 0) 2 /
        mix_sum_m mergeM (fun _ => 0) 2) ∧
    return_prop_node_update mergeM (fun _ => 1) (fun _ => 50) (fun _ => 0)
        (fun _ => 60) (fun _ => 55) (fun _ => 0) (fun _ => 0)
        (fun _ => true) 1000 4000 2 =
      some (mix_sum_t mergeM (fun _ => 50) (fun _ => 0) 2 /
        mix_sum_m mergeM (fun _ => 0) 2) :=
  ⟨(mixing_zero_flow_guard mergeM (fun _ => 0) (fun _ => 0) (fun _ => 50)
      (fun _ => 0) (fun _ => 60) (fun _ => 55) (fun _ => 0) (fun _ => 0)
      (fun _ => 0) (fun _ => false) (fun _ => false) (fun _ => 0)
      (fun _ => 0) 1000 4000 0 2).1 rfl (by decide) (by simp [mix_sum_m]),
   (mixing_zero_flow_guard mergeM (fun _ => 0) (fun _ => 0) (fun _ => 50)
      (fun _ => 0) (fun _ => 60) (fun _ => 55) (fun _ => 0) (fun _ => 0)
      (fun _ => 0) (fun _ => false) (fun _ => false) (fun _ => 0)
      (fun _ => 0) 1000 4000 0 2).2.2.1 rfl (by decide),
   (mixing_zero_flow_guard mergeM (fun _ => 0) (fun _ => 1) (fun _ => 50)
      (fun _ => 0) (fun _ => 60) (fun _ => 55) (fun _ => 0) (fun _ => 0)
      (fun _ => 0) (fun _ => true) (fun _ => false) (fun _ => 0)
      (fun _ => 0) 1000 4000 0 2).2.2.2 (by norm_num) (by simp)
      (by decide)⟩

/-! ## Reversed flow into a feeder on the return side (claim C8) -/

/-- CLAIM C8 (amended): during return-side propagation a feeder reached with
reversed flow (positive external return mass flow) raises the fatal
`ValueError` exactly when it is a return-side source (no incoming return
pipes, i.e. in the seeding pass); a reversed-flow feeder that has incoming
return pipes is handled by the feeder mixing branch instead and is assigned
a temperature without any error. -/
theorem return_feeder_reversal {nN nL : ℕ} (M : Fin nN → Fin nL → ℤ)
    (m_ext_return m_ext_trans : Fin nN → ℚ) (t_last m_trans : Fin nL → ℚ)
    (t_forerun_now t_forerun_prev t_return_prev : Fin nN → ℚ)
    (Q_dot_sim V_dot_sim : Fin nN → ℚ) (feed_in : Fin nN → Bool)
    (t_hyd : ℕ) (temp_soil rho c_p : ℚ) (x : Fin nN) :
    (feed_in x = true → 0 < m_ext_return x → in_degree M x = 0 →
      return_seed_node_update M m_ext_return feed_in t_hyd t_forerun_now
          t_forerun_prev t_return_prev Q_dot_sim temp_soil rho c_p x =
        some (Except.error ())) ∧
    (feed_in x = true → 0 < m_ext_trans x → 0 < in_degree M x →
      return_prop_node_update M m_ext_trans t_last m_trans t_forerun_now
          t_return_prev Q_dot_sim V_dot_sim feed_in rho c_p x =
        some (mix_sum_t M t_last m_trans x / mix_sum_m M m_trans x)) := by
  constructor
  · intro hfeed hpos hdeg
    unfold return_seed_node_update
    rw [if_pos ⟨le_of_lt hpos, hdeg⟩, if_neg (ne_of_gt hpos),
      if_neg (by simp [hfeed])]
  · intro hfeed hpos hdeg
    unfold return_prop_node_update
    rw [if_neg (ne_of_gt hpos), if_neg (by simp [hfeed]), if_pos hdeg]

/-- COUNTEREXAMPLE to C8 as stated: feeder node 1 of `chainM` (feeder flag
set, positive external return mass flow 1, one incoming return pipe with
outlet temperature 50) is reached during return propagation and is assigned
the mixed temperature 50; no ValueError is raised. -/
theorem return_feeder_reversal_cex :
    ((fun _ : Fin 2 => true) 1 = true) ∧ ((0 : ℚ) < 1) ∧
    return_prop_node_update chainM (fun _ => 1) (fun _ => 50) (fun _ => 1)
        (fun _ => 60) (fun _ => 40) (fun _ => 0) (fun _ => 0) (fun _ => true)
        1000 4000 1 = some 50 := by
  have hfilter : Finset.univ.filter (fun l => chainM 1 l = -1) =
      (Finset.univ : Finset (Fin 1)) := by decide
  have hs1 : mix_sum_t chainM (fun _ => (50 : ℚ)) (fun _ => 1) 1 = 50 := by
    unfold mix_sum_t
    rw [hfilter]
    simp
  have hs2 : mix_sum_m chainM (fun _ => (1 : ℚ)) 1 = 1 := by
    unfold mix_sum_m
    rw [hfilter]
    simp
  have hdeg : in_degree chainM 1 = 1 := by decide
  refine ⟨rfl, by norm_num, ?_⟩
  simp only [return_prop_node_update, hs1, hs2, hdeg]
  norm_num

/-- Witness for the amended C8 theorem: the seeding-pass feeder with
reversed flow errors out, the propagation-pass feeder gets the mixing
value. -/
theorem return_feeder_reversal_witness :
    return_seed_node_update soloM (fun _ => 1) (fun _ => true) 0 (fun _ => 60)
        (fun _ => 0) (fun _ => 0) (fun _ => 160) 30 1000 4000 0 =
      some (Except.error ()) ∧
    return_prop_node_update chainM (fun _ => 1) (fun _ => 50) (fun _ => 1)
        (fun _ => 60) (fun _ => 40) (fun _ => 0) (fun _ => 0) (fun _ => true)
        1000 4000 1 =
      some (mix_sum_t chainM (fun _ => 50) (fun _ => 1) 1 /
        mix_sum_m chainM (fun _ => 1) 1) :=
  ⟨(return_feeder_reversal soloM (fun _ => 1) (fun _ => 1) Fin.elim0
      Fin.elim0 (fun _ => 60) (fun _ => 0) (fun _ => 0) (fun _ => 160)
      (fun _ => 1) (fun _ => true) 0 30 1000 4000 0).1
      rfl (by norm_num) (by decide),
   (return_feeder_reversal chainM (fun _ => 1) (fun _ => 1) (fun _ => 50)
      (fun _ => 1) (fun _ => 60) (fun _ => 0) (fun _ => 40) (fun _ => 0)
      (fun _ => 0) (fun _ => true) 0 30 1000 4000 1).2
      rfl (by norm_num) (by decide)⟩

/-! ## Topological propagation on a single-feeder tree (claim C4) -/

theorem therm_body_mono_node {nN nL : ℕ} (M : Fin nN → Fin nL → ℤ)
    (s : PropState nN nL) (x : Fin nN) (h : s.nodeCalc x = true) :
    (therm_body M s).nodeCalc x = true := by
  simp [therm_body, step_lines, step_nodes, h]

theorem therm_body_mono_line {nN nL : ℕ} (M : Fin nN → Fin nL → ℤ)
    (s : PropState nN nL) (l : Fin nL) (h : s.lineCalc l = true) :
    (therm_body M s).lineCalc l = true := by
  simp [therm_body, step_lines, step_nodes, h]

theorem step_nodes_nodeCalc {nN nL : ℕ} (M : Fin nN → Fin nL → ℤ)
    (s : PropState nN nL) (x : Fin nN) :
    (step_nodes M s).nodeCalc x =
      (s.nodeCalc x || decide (node_ready M s x)) := rfl

theorem step_nodes_lineCalc {nN nL : ℕ} (M : Fin nN → Fin nL → ℤ)
    (s : PropState nN nL) (l : Fin nL) :
    (step_nodes M s).lineCalc l = s.lineCalc l := rfl

theorem step_lines_lineCalc {nN nL : ℕ} (M : Fin nN → Fin nL → ℤ)
    (s : PropState nN nL) (l : Fin nL) :
    (step_lines M s).lineCalc l =
      (s.lineCalc l || decide (line_ready M s l)) := rfl

theorem therm_body_invariant {nN nL : ℕ} (M : Fin nN → Fin nL → ℤ)
    (r : Fin nN) (s : PropState nN nL)
    (hstart : ∀ l, ∃! x, M x l = 1)
    (hinv : prop_invariant M r s) : prop_invariant M r (therm_body M s) := by
  obtain ⟨hr, hline, hncnt, hlcnt⟩ := hinv
  refine ⟨therm_body_mono_node M s r hr, ?_, ?_, ?_⟩
  · intro l x hx
    show (step_lines M (step_nodes M s)).lineCalc l =
      (step_nodes M s).nodeCalc x
    rw [step_lines_lineCalc, step_nodes_lineCalc]
    cases hsx : (step_nodes M s).nodeCalc x with
    | true =>
      cases hsl : s.lineCalc l with
      | true => simp
      | false =>
        have hready : line_ready M (step_nodes M s) l := by
          refine ⟨?_, ⟨x, hx, hsx⟩⟩
          rw [step_nodes_lineCalc]
          exact hsl
        simp [hready]
    | false =>
      have hsx0 : s.nodeCalc x = false := by
        rw [step_nodes_nodeCalc] at hsx
        exact (Bool.or_eq_false_iff.mp hsx).1
      have hsl0 : s.lineCalc l = false := by rw [hline l x hx, hsx0]
      have hnready : ¬ line_ready M (step_nodes M s) l := by
        rintro ⟨_, y, hy, hyc⟩
        obtain ⟨z, _, huniq⟩ := hstart l
        rw [huniq y hy, ← huniq x hx] at hyc
        rw [hyc] at hsx
        exact Bool.noConfusion hsx
      simp [hsl0, hnready]
  · intro x
    show (step_nodes M s).nodeCount x =
      if (step_nodes M s).nodeCalc x then 1 else 0
    rw [step_nodes_nodeCalc]
    show s.nodeCount x + (if node_ready M s x then 1 else 0) = _
    cases hsx : s.nodeCalc x with
    | true =>
      have hnready : ¬ node_ready M s x := fun hc => by
        rw [hc.1] at hsx
        exact Bool.noConfusion hsx
      simp [hsx, hnready, hncnt x]
    | false =>
      by_cases hready : node_ready M s x
      · simp [hsx, hready, hncnt x]
      · simp [hsx, hready, hncnt x]
  · intro l
    show (step_lines M (step_nodes M s)).lineCount l =
      if (step_lines M (step_nodes M s)).lineCalc l then 1 else 0
    rw [step_lines_lineCalc, step_nodes_lineCalc]
    show (step_nodes M s).lineCount l +
      (if line_ready M (step_nodes M s) l then 1 else 0) = _
    show s.lineCount l + (if line_ready M (step_nodes M s) l then 1 else 0) = _
    cases hsl : s.lineCalc l with
    | true =>
      have hnready : ¬ line_ready M (step_nodes M s) l := fun hc => by
        have h1 := hc.1
        rw [step_nodes_lineCalc, hsl] at h1
        exact Bool.noConfusion h1
      simp [hnready, hlcnt l, hsl]
    | false =>
      by_cases hready : line_ready M (step_nodes M s) l
      · simp [hready, hlcnt l, hsl]
      · simp [hready, hlcnt l, hsl]

theorem therm_body_progress {nN nL : ℕ} (M : Fin nN → Fin nL → ℤ)
    (r : Fin nN) (d : Fin nN → ℕ) (s : PropState nN nL)
    (hstart : ∀ l, ∃! x, M x l = 1)
    (hin : ∀ x, x ≠ r → ∃! l, M x l = -1)
    (hd : ∀ x l y, M x l = -1 → M y l = 1 → d y < d x)
    (hinv : prop_invariant M r s)
    (x0 : Fin nN) (h0 : s.nodeCalc x0 = false) :
    ∃ x, s.nodeCalc x = false ∧ (therm_body M s).nodeCalc x = true := by
  obtain ⟨hr, hline, _, _⟩ := hinv
  have hU : x0 ∈ Finset.univ.filter (fun x => s.nodeCalc x = false) := by
    simp [h0]
  obtain ⟨x, hxU, hmin⟩ := Finset.exists_min_image _ d ⟨x0, hU⟩
  have hxcalc : s.nodeCalc x = false := by
    simpa using hxU
  have hxr : x ≠ r := by
    intro h
    rw [h, hr] at hxcalc
    exact Bool.noConfusion hxcalc
  obtain ⟨l, hl, hluniq⟩ := hin x hxr
  obtain ⟨y, hy, _⟩ := hstart l
  have hdy : d y < d x := hd x l y hl hy
  have hycalc : s.nodeCalc y = true := by
    cases hyc : s.nodeCalc y with
    | true => rfl
    | false =>
      have hyU : y ∈ Finset.univ.filter (fun x => s.nodeCalc x = false) := by
        simp [hyc]
      exact absurd (hmin y hyU) (by omega)
  have hlcalc : s.lineCalc l = true := by rw [hline l y hy, hycalc]
  have hready : node_ready M s x := by
    refine ⟨hxcalc, ?_, ⟨l, hl, hlcalc⟩⟩
    intro l2 hl2
    rw [hluniq l2 hl2]
    exact hlcalc
  refine ⟨x, hxcalc, ?_⟩
  show (step_lines M (step_nodes M s)).nodeCalc x = true
  simp [step_lines, step_nodes, hready]

theorem prop_complete_of_nodes {nN nL : ℕ} (M : Fin nN → Fin nL → ℤ)
    (r : Fin nN) (s : PropState nN nL)
    (hstart : ∀ l, ∃! x, M x l = 1)
    (hinv : prop_invariant M r s)
    (hall : ∀ x, s.nodeCalc x = true) : prop_complete s := by
  refine ⟨hall, ?_⟩
  intro l
  obtain ⟨y, hy, _⟩ := hstart l
  rw [hinv.2.1 l y hy]
  exact hall y

theorem therm_loop_completes {nN nL : ℕ} (M : Fin nN → Fin nL → ℤ)
    (r : Fin nN) (d : Fin nN → ℕ)
    (hstart : ∀ l, ∃! x, M x l = 1)
    (hin : ∀ x, x ≠ r → ∃! l, M x l = -1)
    (hd : ∀ x l y, M x l = -1 → M y l = 1 → d y < d x) :
    ∀ k (s : PropState nN nL), prop_invariant M r s →
      (Finset.univ.filter (fun x => s.nodeCalc x = false)).card ≤ k →
      ∃ sf, therm_forerun_loop M s (k + 1) = some sf ∧ prop_complete sf ∧
        prop_invariant M r sf := by
  intro k
  induction k with
  | zero =>
    intro s hinv hcard
    have hall : ∀ x, s.nodeCalc x = true := by
      intro x
      cases hx : s.nodeCalc x with
      | true => rfl
      | false =>
        have hmem : x ∈ Finset.univ.filter (fun x => s.nodeCalc x = false) := by
          simp [hx]
        have := Finset.card_pos.mpr ⟨x, hmem⟩
        omega
    have hc : prop_complete s := prop_complete_of_nodes M r s hstart hinv hall
    have hcb : prop_complete (therm_body M s) :=
      ⟨fun x => therm_body_mono_node M s x (hc.1 x),
       fun l => therm_body_mono_line M s l (hc.2 l)⟩
    refine ⟨therm_body M s, ?_, hcb, therm_body_invariant M r s hstart hinv⟩
    rw [therm_forerun_loop, if_pos hcb]
  | succ k ih =>
    intro s hinv hcard
    have hinvb := therm_body_invariant M r s hstart hinv
    by_cases hcb : prop_complete (therm_body M s)
    · refine ⟨therm_body M s, ?_, hcb, hinvb⟩
      rw [therm_forerun_loop, if_pos hcb]
    · have hx0 : ∃ x, (therm_body M s).nodeCalc x = false := by
        by_contra hallc
        push_neg at hallc
        refine hcb (prop_complete_of_nodes M r _ hstart hinvb ?_)
        intro x
        cases hbx : (therm_body M s).nodeCalc x with
        | true => rfl
        | false => exact absurd hbx (hallc x)
      obtain ⟨x1, hx1⟩ := hx0
      have hx1s : s.nodeCalc x1 = false := by
        cases hxs : s.nodeCalc x1 with
        | false => rfl
        | true =>
          rw [therm_body_mono_node M s x1 hxs] at hx1
          exact Bool.noConfusion hx1
      obtain ⟨x2, hx2s, hx2b⟩ :=
        therm_body_progress M r d s hstart hin hd hinv x1 hx1s
      have hsubset :
          Finset.univ.filter (fun x => (therm_body M s).nodeCalc x = false) ⊆
          Finset.univ.filter (fun x => s.nodeCalc x = false) := by
        intro z hz
        simp only [Finset.mem_filter, Finset.mem_univ, true_and] at hz ⊢
        cases hzs : s.nodeCalc z with
        | false => rfl
        | true =>
          rw [therm_body_mono_node M s z hzs] at hz
          exact Bool.noConfusion hz
      have hssub :
          Finset.univ.filter (fun x => (therm_body M s).nodeCalc x = false) ⊂
          Finset.univ.filter (fun x => s.nodeCalc x = false) := by
        refine Finset.ssubset_iff_of_subset hsubset |>.mpr ?_
        refine ⟨x2, by simp [hx2s], ?_⟩
        simp [hx2b]
      have hlt := Finset.card_lt_card hssub
      obtain ⟨sf, hsf, hcf, hinvf⟩ := ih (therm_body M s) hinvb (by omega)
      refine ⟨sf, ?_, hcf, hinvf⟩
      rw [therm_forerun_loop, if_neg hcb]
      exact hsf

theorem seed_state_invariant {nN nL : ℕ} (M : Fin nN → Fin nL → ℤ)
    (m_ext : Fin nN → ℚ) (r : Fin nN)
    (hstart : ∀ l, ∃! x, M x l = 1)
    (hrin : ∀ l, M r l ≠ -1)
    (hrext : 0 ≤ m_ext r)
    (hin : ∀ x, x ≠ r → ∃! l, M x l = -1)
    (hout : ∃ l, M r l = 1) :
    prop_invariant M r (seed_state M m_ext) := by
  have hseedr : is_seed M m_ext r := by
    refine ⟨hrext, ?_⟩
    unfold in_degree
    rw [Finset.card_eq_zero, Finset.filter_eq_empty_iff]
    intro l _
    exact hrin l
  have hseed_only : ∀ x, is_seed M m_ext x → x = r := by
    intro x hx
    by_contra hxr
    obtain ⟨l, hl, _⟩ := hin x hxr
    have hmem : l ∈ Finset.univ.filter (fun l => M x l = -1) := by simp [hl]
    have hpos := Finset.card_pos.mpr ⟨l, hmem⟩
    have hz := hx.2
    unfold in_degree at hz
    omega
  refine ⟨?_, ?_, ?_, ?_⟩
  · show decide (is_seed M m_ext r ∧ ∃ l, M r l = 1) = true
    simp [hseedr, hout]
  · intro l x hx
    show decide (∃ x1, is_seed M m_ext x1 ∧ M x1 l = 1) =
      decide (is_seed M m_ext x ∧ ∃ l1, M x l1 = 1)
    by_cases hs : is_seed M m_ext x
    · have h1 : ∃ x1, is_seed M m_ext x1 ∧ M x1 l = 1 := ⟨x, hs, hx⟩
      have h2 : is_seed M m_ext x ∧ ∃ l1, M x l1 = 1 := ⟨hs, ⟨l, hx⟩⟩
      simp [h1, h2]
    · have h1 : ¬(∃ x1, is_seed M m_ext x1 ∧ M x1 l = 1) := by
        rintro ⟨x1, hx1s, hx1l⟩
        obtain ⟨y, _, huniq⟩ := hstart l
        rw [huniq x1 hx1l, ← huniq x hx] at hx1s
        exact hs hx1s
      have h2 : ¬(is_seed M m_ext x ∧ ∃ l1, M x l1 = 1) := fun hc => hs hc.1
      simp [h1, h2]
  · intro x
    show (if is_seed M m_ext x then 1 else 0) =
      if decide (is_seed M m_ext x ∧ ∃ l, M x l = 1) = true then 1 else 0
    by_cases hs : is_seed M m_ext x
    · have hxr := hseed_only x hs
      subst hxr
      simp [hs, hout]
    · simp [hs]
  · intro l
    show (Finset.univ.filter (fun x => is_seed M m_ext x ∧ M x l = 1)).card =
      if decide (∃ x, is_seed M m_ext x ∧ M x l = 1) = true then 1 else 0
    by_cases hex : ∃ x, is_seed M m_ext x ∧ M x l = 1
    · obtain ⟨x, hxs, hxl⟩ := hex
      have hfe : Finset.univ.filter (fun x => is_seed M m_ext x ∧ M x l = 1) =
          {x} := by
        apply Finset.eq_singleton_iff_unique_mem.mpr
        refine ⟨by simp [hxs, hxl], ?_⟩
        intro y hy
        simp only [Finset.mem_filter, Finset.mem_univ, true_and] at hy
        obtain ⟨z, _, huniq⟩ := hstart l
        rw [huniq y hy.2, ← huniq x hxl]
      have hex2 : ∃ x, is_seed M m_ext x ∧ M x l = 1 := ⟨x, hxs, hxl⟩
      rw [hfe]
      simp [hex2]
    · have hfe : Finset.univ.filter (fun x => is_seed M m_ext x ∧ M x l = 1) =
          ∅ := by
        rw [Finset.filter_eq_empty_iff]
        intro y _
        exact fun hc => hex ⟨y, hc⟩
      rw [hfe]
      simp [hex]

/-- CLAIM C4: on a tree topology with a single feeder `r` - every pipe has a
unique start node, the feeder has no incoming pipe and nonnegative external
flow, every other node has exactly one incoming pipe and nonpositive
external flow, and a depth function witnesses acyclicity with every node
reachable from the feeder - each thermal substep's forerun propagation loop
of `solve_network_therm` terminates within `nN` iterations, and on
termination every node's temperature has been assigned exactly once and
every pipe's segment temperature array has been advanced exactly once. -/
theorem solve_network_therm_forerun_propagation {nN nL : ℕ}
    (M : Fin nN → Fin nL → ℤ) (m_ext : Fin nN → ℚ) (d : Fin nN → ℕ)
    (r : Fin nN) (hN : 2 ≤ nN)
    (hstart : ∀ l, ∃! x, M x l = 1)
    (hrin : ∀ l, M r l ≠ -1)
    (hrext : 0 ≤ m_ext r)
    (hsingle : ∀ x, x ≠ r → m_ext x ≤ 0)
    (hin : ∀ x, x ≠ r → ∃! l, M x l = -1)
    (hd : ∀ x l y, M x l = -1 → M y l = 1 → d y < d x) :
    ∃ sf, therm_forerun_loop M (seed_state M m_ext) nN = some sf ∧
      (∀ x, sf.nodeCount x = 1) ∧ (∀ l, sf.lineCount l = 1) := by
  have hout : ∃ l, M r l = 1 := by
    have hne : (Finset.univ.filter (fun x : Fin nN => x ≠ r)).Nonempty := by
      obtain ⟨x, hx⟩ := Fintype.exists_ne_of_one_lt_card
        (by simpa using hN) r
      exact ⟨x, by simp [hx]⟩
    obtain ⟨x, hxU, hmin⟩ := Finset.exists_min_image _ d hne
    have hxr : x ≠ r := by simpa using hxU
    obtain ⟨l, hl, _⟩ := hin x hxr
    obtain ⟨y, hy, _⟩ := hstart l
    have hdy : d y < d x := hd x l y hl hy
    have hyr : y = r := by
      by_contra hyr
      have hyU : y ∈ Finset.univ.filter (fun x : Fin nN => x ≠ r) := by
        simp [hyr]
      exact absurd (hmin y hyU) (by omega)
    exact ⟨l, hyr ▸ hy⟩
  have hinv0 := seed_state_invariant M m_ext r hstart hrin hrext hin hout
  have hcard0 : (Finset.univ.filter
      (fun x => (seed_state M m_ext).nodeCalc x = false)).card ≤ nN - 1 := by
    have hsub : Finset.univ.filter
        (fun x => (seed_state M m_ext).nodeCalc x = false) ⊆
        Finset.univ.filter (fun x : Fin nN => x ≠ r) := by
      intro z hz
      simp only [Finset.mem_filter, Finset.mem_univ, true_and] at hz ⊢
      intro hzr
      subst hzr
      rw [hinv0.1] at hz
      exact Bool.noConfusion hz
    have hcardr : (Finset.univ.filter (fun x : Fin nN => x ≠ r)).card =
        nN - 1 := by
      rw [Finset.filter_ne' Finset.univ r, Finset.card_erase_of_mem
        (Finset.mem_univ r)]
      simp
    calc (Finset.univ.filter
        (fun x => (seed_state M m_ext).nodeCalc x = false)).card
        ≤ (Finset.univ.filter (fun x : Fin nN => x ≠ r)).card :=
          Finset.card_le_card hsub
      _ = nN - 1 := hcardr
  obtain ⟨sf, hsf, hcf, hinvf⟩ := therm_loop_completes M r d hstart hin hd
    (nN - 1) (seed_state M m_ext) hinv0 hcard0
  have hfuel : nN - 1 + 1 = nN := by omega
  rw [hfuel] at hsf
  refine ⟨sf, hsf, ?_, ?_⟩
  · intro x
    rw [hinvf.2.2.1 x, if_pos (hcf.1 x)]
  · intro l
    rw [hinvf.2.2.2 l, if_pos (hcf.2 l)]

/-- External flows of the two-node witness tree: the feeder injects, the
consumer extracts. -/
def c4ext : Fin 2 → ℚ := fun x => if x = 0 then 1 else -1

/-- Witness for C4 on the two-node, one-pipe tree `chainM` rooted at the
feeder node 0. -/
theorem solve_network_therm_forerun_propagation_witness :
    ∃ sf, therm_forerun_loop chainM (seed_state chainM c4ext) 2 = some sf ∧
      (∀ x, sf.nodeCount x = 1) ∧ (∀ l, sf.lineCount l = 1) :=
  solve_network_therm_forerun_propagation chainM c4ext (fun x => x.val) 0
    (by omega) (by decide) (by decide) (by norm_num [c4ext])
    (by
      intro x hx
      fin_cases x
      · exact absurd rfl hx
      · norm_num [c4ext])
    (by decide) (by decide)

end LowTemp
